import Mathlib

/-
Shallow embedding of `src/src/dataflow/channels/pact.rs` (timely-dataflow's
parallelization contracts) together with spec-modelled versions of the
collaborators that the file uses but that are not part of the sources at hand
(`Message`, the `Thread` loopback allocator, the fan-out `Exchange` pusher,
and the logging sink).

Batches `Content<D>` are modelled as `List D` (with `len` as `List.length`);
machine integers (`usize`/`u64`) are modelled as `Nat`.  Mutable references
are modelled by explicit state passing: each operation returns the updated
endpoint state together with the value left in the caller's slot and the list
of telemetry events emitted during the call.
-/

namespace TimelyPact

/-- Modelled from the spec: the telemetry collaborator's structured event,
with fields (is_send, channel, source, target, seq_no, length); the logging
sink itself is modelled by returning the list of events emitted by a call. -/
structure MessagesEvent where
  is_send : Bool
  channel : Nat
  source : Nat
  target : Nat
  seq_no : Nat
  length : Nat
deriving DecidableEq, Repr

/-- Modelled from the spec: the Framed Message `Message<T, D>` (declared in
`dataflow/channels`, outside the sources at hand) — a (time, data, source,
sequence) envelope.  The `from` field of the source is written `from_`
because `from` is a Lean keyword. -/
structure Message (T D : Type) where
  time : T
  data : List D
  from_ : Nat
  seq : Nat
deriving DecidableEq, Repr

/-- Constructor mirroring `Message::new(time, data, from, seq)` as used at
`pact.rs` lines 125 and 159. -/
def Message.new {T D : Type} (time : T) (data : List D) (from_ : Nat) (seq : Nat) :
    Message T D :=
  { time := time, data := data, from_ := from_, seq := seq }

/-- The behaviour of a boxed raw send endpoint `Box<Push<Message<T, D>>>`
over an opaque state `σ`: `push` receives the caller's slot and returns the
value left in that slot (a reusable frame, or nothing) with the new state;
`done` is the flush/close signal. -/
structure RawPush (T D σ : Type) where
  push : Option (Message T D) → σ → Option (Message T D) × σ
  done : σ → σ

/-- The behaviour of a boxed raw receive endpoint `Box<Pull<Message<T, D>>>`
over an opaque state `σ`: `pull` swaps the handed-back reuse buffer into the
endpoint and returns the frame the endpoint currently holds, if any. -/
structure RawPull (T D σ : Type) where
  pull : Option (Message T D) → σ → Option (Message T D) × σ

/-- The send endpoint wrapper `Pusher<T, D>` of `pact.rs` lines 92-110; the
boxed raw pusher field is represented by its state `σ`. -/
structure Pusher (T D : Type) (σ : Type) where
  pusher : σ
  channel : Nat
  counter : Nat
  source : Nat
  target : Nat
deriving DecidableEq, Repr

/-- `Pusher::new(pusher, source, target, channel)`, `pact.rs` lines 101-109. -/
def Pusher.new {T D σ : Type} (pusher : σ) (source : Nat) (target : Nat)
    (channel : Nat) : Pusher T D σ :=
  { pusher := pusher, channel := channel, counter := 0,
    source := source, target := target }

/-- `Pusher::push`, `pact.rs` lines 112-134.  If the slot holds `(time, data)`:
log one send event, frame the pair with this worker's source id and current
counter, increment the counter, push the frame into the raw endpoint, and put
back into the slot the (time, data) of whatever frame the raw endpoint left
behind.  If the slot is empty: call `done` on the raw endpoint. -/
def Pusher.push {T D σ : Type} (raw : RawPush T D σ) (p : Pusher T D σ)
    (pair : Option (T × List D)) :
    Pusher T D σ × Option (T × List D) × List MessagesEvent :=
  match pair with
  | some (time, data) =>
    let ev : MessagesEvent :=
      { is_send := true, channel := p.channel, source := p.source,
        target := p.target, seq_no := p.counter, length := data.length }
    let r := raw.push (some (Message.new time data p.source p.counter)) p.pusher
    ({ p with pusher := r.2, counter := p.counter + 1 },
     r.1.map (fun x => (x.time, x.data)), [ev])
  | none => ({ p with pusher := raw.done p.pusher }, none, [])

/-- The receive endpoint wrapper `Puller<T, D>` of `pact.rs` lines 137-155. -/
structure Puller (T D : Type) (σ : Type) where
  puller : σ
  current : Option (T × List D)
  channel : Nat
  counter : Nat
  index : Nat
deriving DecidableEq, Repr

/-- `Puller::new(puller, index, channel)`, `pact.rs` lines 146-154. -/
def Puller.new {T D σ : Type} (puller : σ) (index : Nat) (channel : Nat) :
    Puller T D σ :=
  { puller := puller, channel := channel, current := none,
    counter := 0, index := index }

/-- `Puller::pull`, `pact.rs` lines 157-179.  Re-wrap the previously held
(time, data) as a frame stamped with this worker's index and the local pull
counter, increment the counter, swap the frame with the raw endpoint's
current result, log one receive event if a frame arrived (with the frame's
own `from` and `seq`), and hold the arrived (time, data), which is what the
call exposes to the caller. -/
def Puller.pull {T D σ : Type} (raw : RawPull T D σ) (p : Puller T D σ) :
    Puller T D σ × Option (T × List D) × List MessagesEvent :=
  let previous := p.current.map (fun td => Message.new td.1 td.2 p.index p.counter)
  let r := raw.pull previous p.puller
  let evs : List MessagesEvent :=
    match r.1 with
    | some message =>
      [{ is_send := false, channel := p.channel, source := message.from_,
         target := p.index, seq_no := message.seq, length := message.data.length }]
    | none => []
  let current := r.1.map (fun message => (message.time, message.data))
  ({ p with puller := r.2, current := current, counter := p.counter + 1 },
   current, evs)

/-- Whether a raw channel was produced by the thread-local loopback allocator
or by the general cross-worker allocator. -/
inductive AllocKind where
  | threadLocal : AllocKind
  | crossWorker : AllocKind
deriving DecidableEq, Repr

/-- Modelled from the spec: a raw channel of the allocator collaborator (not
among the sources at hand) — a FIFO, lossless queue of frames, tagged with the
allocator that produced it, counting the flush/close signals it received. -/
structure RawChannel (T D : Type) where
  kind : AllocKind
  queue : List (Message T D)
  dones : Nat
deriving DecidableEq, Repr

/-- Modelled from the spec: the raw send endpoint of a FIFO lossless channel —
pushing a present frame enqueues it at the back (handing no reuse frame back);
`done` records one flush/close signal. -/
def RawChannel.rawPush {T D : Type} : RawPush T D (RawChannel T D) :=
  { push := fun m s => (none, { s with queue := s.queue ++ m.toList }),
    done := fun s => { s with dones := s.dones + 1 } }

/-- Modelled from the spec: the raw receive endpoint of a FIFO lossless
channel — a pull absorbs the handed-back reuse buffer and yields the frame at
the front of the queue, if any. -/
def RawChannel.rawPull {T D : Type} : RawPull T D (RawChannel T D) :=
  { pull := fun _ s =>
      match s.queue with
      | [] => (none, s)
      | m :: rest => (some m, { s with queue := rest }) }

/-- Modelled from the spec: `Thread::new`, the thread-local loopback allocator
of `timely_communication` (not among the sources at hand) — a fresh
single-worker loopback FIFO queue shared by the two endpoints it returns,
bypassing cross-worker machinery. -/
def Thread.new {T D : Type} : RawChannel T D :=
  { kind := AllocKind.threadLocal, queue := [], dones := 0 }

/-- Modelled from the spec: the allocator collaborator handle — `index` is
this worker's id and `peers` the number of workers. -/
structure Allocate where
  index : Nat
  peers : Nat
deriving DecidableEq, Repr

/-- Modelled from the spec: `allocator.allocate::<Message<T, D>>()` — one
fresh cross-worker raw send endpoint per destination worker, plus one receive
endpoint for this worker. -/
def Allocate.allocate (T D : Type) (a : Allocate) :
    List (RawChannel T D) × RawChannel T D :=
  (List.replicate a.peers { kind := AllocKind.crossWorker, queue := [], dones := 0 },
   { kind := AllocKind.crossWorker, queue := [], dones := 0 })

/-- `Pipeline::connect`, `pact.rs` lines 35-41: ignore the passed allocator's
channels, allocate a loopback queue from the thread allocator, and wrap its
two halves with source = target = this worker's index and the given channel
identifier.  The two wrappers share the single loopback queue; system-level
runs thread the shared queue from the send side to the receive side. -/
def Pipeline.connect (T D : Type) (allocator : Allocate) (identifier : Nat) :
    Pusher T D (RawChannel T D) × Puller T D (RawChannel T D) :=
  (Pusher.new Thread.new allocator.index allocator.index identifier,
   Puller.new Thread.new allocator.index identifier)

/-- The `Exchange<D, F>` pact of `pact.rs` lines 45-54, carrying the
user-supplied distribution function over the pushed data. -/
structure Exchange (D : Type) where
  hash_func : List D → Nat

/-- `Exchange::new(func)`, `pact.rs` lines 48-53. -/
def Exchange.new {D : Type} (func : List D → Nat) : Exchange D :=
  { hash_func := func }

/-- Modelled from the spec: the fan-out multiplexing send endpoint
`pushers::Exchange` (not among the sources at hand) — it owns one wrapped
send endpoint per destination worker and a hash function over (time, data);
each pushed batch is routed whole (the batch is the atomic unit of hashing
and routing) to destination index = hash mod N, and an empty push is
forwarded to every underlying endpoint as a flush. -/
structure ExchangePusher (T D : Type) (σ : Type) where
  pushers : List (Pusher T D σ)
  hash_func : T → List D → Nat

/-- `ExchangePusher::new(pushers, hash_func)`. -/
def ExchangePusher.new {T D σ : Type} (pushers : List (Pusher T D σ))
    (hash_func : T → List D → Nat) : ExchangePusher T D σ :=
  { pushers := pushers, hash_func := hash_func }

/-- Modelled from the spec: one push through the fan-out endpoint.  A present
batch goes whole to the wrapped endpoint at index hash(time, data) mod N; an
empty slot is forwarded to every wrapped endpoint as a flush signal. -/
def ExchangePusher.push {T D σ : Type} (raw : RawPush T D σ)
    (e : ExchangePusher T D σ) (pair : Option (T × List D)) :
    ExchangePusher T D σ × Option (T × List D) × List MessagesEvent :=
  match pair with
  | some (time, data) =>
    let i := e.hash_func time data % e.pushers.length
    match e.pushers.get? i with
    | some p =>
      let r := Pusher.push raw p (some (time, data))
      ({ e with pushers := e.pushers.set i r.1 }, r.2.1, r.2.2)
    | none => (e, none, [])
  | none =>
    ({ e with pushers := e.pushers.map (fun p => (Pusher.push raw p none).1) },
     none, [])

/-- `Exchange::connect`, `pact.rs` lines 62-67: allocate one raw sender per
destination worker plus one receiver, wrap the i-th sender with
source = this worker's index, target = i, channel = identifier, combine the
wrapped senders into one fan-out endpoint whose hash ignores the time, and
wrap the receiver with this worker's index and the identifier. -/
def Exchange.connect (T : Type) {D : Type} (e : Exchange D) (allocator : Allocate)
    (identifier : Nat) :
    ExchangePusher T D (RawChannel T D) × Puller T D (RawChannel T D) :=
  let sr := Allocate.allocate T D allocator
  let senders := sr.1.enum.map
    (fun ix => Pusher.new ix.2 allocator.index ix.1 identifier)
  (ExchangePusher.new senders (fun _ d => e.hash_func d),
   Puller.new sr.2 allocator.index identifier)

/-- The `TimeExchange<D, T, F>` pact of `pact.rs` lines 70-79, whose
distribution function sees the time as well as the data. -/
structure TimeExchange (T D : Type) where
  hash_func : T → List D → Nat

/-- `TimeExchange::new(func)`, `pact.rs` lines 73-78. -/
def TimeExchange.new {T D : Type} (func : T → List D → Nat) : TimeExchange T D :=
  { hash_func := func }

/-- `TimeExchange::connect`, `pact.rs` lines 84-89: identical to
`Exchange::connect` except that the fan-out endpoint receives the
time-and-data hash function unchanged. -/
def TimeExchange.connect {T D : Type} (e : TimeExchange T D)
    (allocator : Allocate) (identifier : Nat) :
    ExchangePusher T D (RawChannel T D) × Puller T D (RawChannel T D) :=
  let sr := Allocate.allocate T D allocator
  let senders := sr.1.enum.map
    (fun ix => Pusher.new ix.2 allocator.index ix.1 identifier)
  (ExchangePusher.new senders e.hash_func,
   Puller.new sr.2 allocator.index identifier)

/-! System-level runs.  Each runner performs a sequence of calls against one
endpoint, threading its state and collecting the telemetry it emits. -/

/-- Run a sequence of push calls against a send endpoint wrapper, collecting
the emitted telemetry in call order. -/
def pushRun {T D σ : Type} (raw : RawPush T D σ) (p : Pusher T D σ) :
    List (Option (T × List D)) → Pusher T D σ × List MessagesEvent
  | [] => (p, [])
  | x :: xs =>
    let r := Pusher.push raw p x
    let rest := pushRun raw r.1 xs
    (rest.1, r.2.2 ++ rest.2)

/-- Run a sequence of push calls against a fan-out endpoint, collecting the
emitted telemetry in call order. -/
def exchangeRun {T D σ : Type} (raw : RawPush T D σ) (e : ExchangePusher T D σ) :
    List (Option (T × List D)) → ExchangePusher T D σ × List MessagesEvent
  | [] => (e, [])
  | x :: xs =>
    let r := ExchangePusher.push raw e x
    let rest := exchangeRun raw r.1 xs
    (rest.1, r.2.2 ++ rest.2)

/-- Run `fuel` pull calls against a receive endpoint wrapper, collecting the
pulled (time, data) pairs and the emitted telemetry in call order. -/
def pullRun {T D σ : Type} (raw : RawPull T D σ) (p : Puller T D σ) :
    Nat → Puller T D σ × List (T × List D) × List MessagesEvent
  | 0 => (p, [], [])
  | n + 1 =>
    let r := Puller.pull raw p
    let rest := pullRun raw r.1 n
    (rest.1, r.2.1.toList ++ rest.2.1, r.2.2 ++ rest.2.2)

/-- Total number of records in a list of pushed or pulled (time, batch)
pairs. -/
def recordCount {T D : Type} (xs : List (T × List D)) : Nat :=
  (xs.map (fun x => x.2.length)).sum

/-- The frames a fresh FIFO channel holds after a sequence of wrapped push
calls by a sender with the given source id, starting from counter `c`: each
present slot becomes one frame carrying the successive counter values. -/
def framesOf {T D : Type} (source : Nat) :
    Nat → List (Option (T × List D)) → List (Message T D)
  | _, [] => []
  | c, none :: xs => framesOf source c xs
  | c, some (t, d) :: xs => Message.new t d source c :: framesOf source (c + 1) xs

/-- The send telemetry a sequence of wrapped push calls emits, starting from
counter `c`. -/
def sendEventsOf {T D : Type} (channel source target : Nat) :
    Nat → List (Option (T × List D)) → List MessagesEvent
  | _, [] => []
  | c, none :: xs => sendEventsOf channel source target c xs
  | c, some (_, d) :: xs =>
    { is_send := true, channel := channel, source := source, target := target,
      seq_no := c, length := d.length } :: sendEventsOf channel source target (c + 1) xs

/-- The receive telemetry a receiver with the given channel and index emits
while draining the given frames in order. -/
def recvEventsOf {T D : Type} (channel index : Nat) (ms : List (Message T D)) :
    List MessagesEvent :=
  ms.map (fun m =>
    { is_send := false, channel := channel, source := m.from_, target := index,
      seq_no := m.seq, length := m.data.length })

/-- Number of present slots in a sequence of push calls. -/
def countSome {T D : Type} (xs : List (Option (T × List D))) : Nat :=
  (xs.filterMap id).length

/-- A fresh cross-worker raw channel, as handed out by the allocator. -/
def crossFresh (T D : Type) : RawChannel T D :=
  { kind := AllocKind.crossWorker, queue := [], dones := 0 }

/-- Total number of records currently held in a raw channel's queue. -/
def queueRecords {T D : Type} (q : RawChannel T D) : Nat :=
  (q.queue.map (fun m => m.data.length)).sum

/-- Total number of records held across all channels of a fan-out endpoint. -/
def totalRecords {T D : Type} (e : ExchangePusher T D (RawChannel T D)) : Nat :=
  (e.pushers.map (fun p => queueRecords p.pusher)).sum

/-- End-to-end Pipeline run: connect, push every pair, hand the shared
loopback queue to the receive side, and drain it; the list of (time, batch)
pairs the receive endpoint observes. -/
def pipelineReceived (T D : Type) (a : Allocate) (identifier : Nat)
    (xs : List (T × List D)) : List (T × List D) :=
  let c := Pipeline.connect T D a identifier
  let sendw := (pushRun RawChannel.rawPush c.1 (xs.map some)).1
  let recvw : Puller T D (RawChannel T D) := { c.2 with puller := sendw.pusher }
  (pullRun RawChannel.rawPull recvw sendw.pusher.queue.length).2.1

/-- End-to-end Hash-Exchange run: connect, push every pair through the
fan-out endpoint, then let the receive endpoint at each destination worker
drain its incoming channel; one observed list per destination worker. -/
def exchangeReceived (T D : Type) (e : Exchange D) (a : Allocate)
    (identifier : Nat) (xs : List (T × List D)) : List (List (T × List D)) :=
  let c := Exchange.connect T e a identifier
  let ep := (exchangeRun RawChannel.rawPush c.1 (xs.map some)).1
  ep.pushers.map (fun p =>
    (pullRun RawChannel.rawPull (Puller.new p.pusher p.target identifier)
      p.pusher.queue.length).2.1)

/-- End-to-end Time-And-Data Hash-Exchange run, as `exchangeReceived`. -/
def timeExchangeReceived {T D : Type} (e : TimeExchange T D) (a : Allocate)
    (identifier : Nat) (xs : List (T × List D)) : List (List (T × List D)) :=
  let c := TimeExchange.connect e a identifier
  let ep := (exchangeRun RawChannel.rawPush c.1 (xs.map some)).1
  ep.pushers.map (fun p =>
    (pullRun RawChannel.rawPull (Puller.new p.pusher p.target identifier)
      p.pusher.queue.length).2.1)

/-- A concrete three-push run against a two-worker Hash-Exchange endpoint on
channel 7, in which the first two batches hash to worker 0 and the third to
worker 1; returns the send telemetry emitted, in call order. -/
def mixedTargetsRun : List MessagesEvent :=
  (exchangeRun RawChannel.rawPush
    (Exchange.connect Nat (Exchange.new (fun d => List.headD d 0)) ⟨0, 2⟩ 7).1
    [some (0, [0]), some (0, [0]), some (0, [1])]).2

/-- A concrete two-worker fan-out endpoint on channel 3 whose hash reads the
head of the batch, used to exhibit routing determinism on a concrete input. -/
def routingWitnessEndpoint : ExchangePusher Nat Nat (RawChannel Nat Nat) :=
  ExchangePusher.new
    [Pusher.new (crossFresh Nat Nat) 0 0 3, Pusher.new (crossFresh Nat Nat) 0 1 3]
    (fun _ d => List.headD d 0)

/-! Helper lemmas. -/

theorem countSome_nil {T D : Type} : countSome ([] : List (Option (T × List D))) = 0 :=
  rfl

theorem countSome_cons_none {T D : Type} (xs : List (Option (T × List D))) :
    countSome (none :: xs) = countSome xs := by
  simp [countSome]

theorem countSome_cons_some {T D : Type} (x : T × List D)
    (xs : List (Option (T × List D))) :
    countSome (some x :: xs) = countSome xs + 1 := by
  simp [countSome, List.filterMap_cons]

theorem framesOf_nil {T D : Type} (s c : Nat) :
    framesOf (T := T) (D := D) s c [] = [] := rfl

theorem framesOf_cons_none {T D : Type} (s c : Nat) (xs : List (Option (T × List D))) :
    framesOf s c (none :: xs) = framesOf s c xs := rfl

theorem framesOf_cons_some {T D : Type} (s c : Nat) (t : T) (d : List D)
    (xs : List (Option (T × List D))) :
    framesOf s c (some (t, d) :: xs) = Message.new t d s c :: framesOf s (c + 1) xs := rfl

theorem sendEventsOf_nil {T D : Type} (channel s tg c : Nat) :
    sendEventsOf (T := T) (D := D) channel s tg c [] = [] := rfl

theorem sendEventsOf_cons_none {T D : Type} (channel s tg c : Nat)
    (xs : List (Option (T × List D))) :
    sendEventsOf channel s tg c (none :: xs) = sendEventsOf channel s tg c xs := rfl

theorem sendEventsOf_cons_some {T D : Type} (channel s tg c : Nat) (t : T) (d : List D)
    (xs : List (Option (T × List D))) :
    sendEventsOf channel s tg c (some (t, d) :: xs) =
      { is_send := true, channel := channel, source := s, target := tg,
        seq_no := c, length := d.length } :: sendEventsOf channel s tg (c + 1) xs := rfl

theorem pushRun_nil {T D σ : Type} (raw : RawPush T D σ) (p : Pusher T D σ) :
    pushRun raw p [] = (p, []) := rfl

theorem pushRun_cons {T D σ : Type} (raw : RawPush T D σ) (p : Pusher T D σ)
    (x : Option (T × List D)) (xs : List (Option (T × List D))) :
    pushRun raw p (x :: xs) =
      ((pushRun raw (Pusher.push raw p x).1 xs).1,
       (Pusher.push raw p x).2.2 ++ (pushRun raw (Pusher.push raw p x).1 xs).2) := rfl

theorem pullRun_zero {T D σ : Type} (raw : RawPull T D σ) (p : Puller T D σ) :
    pullRun raw p 0 = (p, [], []) := rfl

theorem pullRun_succ {T D σ : Type} (raw : RawPull T D σ) (p : Puller T D σ) (n : Nat) :
    pullRun raw p (n + 1) =
      ((pullRun raw (Puller.pull raw p).1 n).1,
       (Puller.pull raw p).2.1.toList ++ (pullRun raw (Puller.pull raw p).1 n).2.1,
       (Puller.pull raw p).2.2 ++ (pullRun raw (Puller.pull raw p).1 n).2.2) := rfl

theorem push_some_eq {T D σ : Type} (raw : RawPush T D σ) (p : Pusher T D σ)
    (t : T) (d : List D) :
    Pusher.push raw p (some (t, d)) =
      ({ p with
          pusher := (raw.push (some (Message.new t d p.source p.counter)) p.pusher).2,
          counter := p.counter + 1 },
       (raw.push (some (Message.new t d p.source p.counter)) p.pusher).1.map
         (fun x => (x.time, x.data)),
       [{ is_send := true, channel := p.channel, source := p.source,
          target := p.target, seq_no := p.counter, length := d.length }]) := rfl

theorem push_none_eq {T D σ : Type} (raw : RawPush T D σ) (p : Pusher T D σ) :
    Pusher.push raw p none = ({ p with pusher := raw.done p.pusher }, none, []) := rfl

theorem rawChannel_push_some {T D : Type} (s : RawChannel T D) (m : Message T D) :
    RawChannel.rawPush.push (some m) s = (none, { s with queue := s.queue ++ [m] }) := rfl

theorem rawChannel_done {T D : Type} (s : RawChannel T D) :
    RawChannel.rawPush.done (T := T) (D := D) s = { s with dones := s.dones + 1 } := rfl

theorem pushRun_meta {T D σ : Type} (raw : RawPush T D σ)
    (xs : List (Option (T × List D))) : ∀ p : Pusher T D σ,
    (pushRun raw p xs).1.source = p.source
    ∧ (pushRun raw p xs).1.target = p.target
    ∧ (pushRun raw p xs).1.channel = p.channel := by
  induction xs with
  | nil => intro p; exact ⟨rfl, rfl, rfl⟩
  | cons x xs ih =>
    intro p
    rcases x with _ | ⟨t, d⟩
    · simpa [pushRun_cons, push_none_eq] using ih _
    · simpa [pushRun_cons, push_some_eq] using ih _

theorem pushRun_counter {T D σ : Type} (raw : RawPush T D σ)
    (xs : List (Option (T × List D))) : ∀ p : Pusher T D σ,
    (pushRun raw p xs).1.counter = p.counter + countSome xs := by
  induction xs with
  | nil => intro p; simp [pushRun_nil, countSome_nil]
  | cons x xs ih =>
    intro p
    rcases x with _ | ⟨t, d⟩
    · rw [pushRun_cons, push_none_eq]
      simpa [countSome_cons_none] using ih _
    · rw [pushRun_cons, push_some_eq]
      have h := ih { p with
        pusher := (raw.push (some (Message.new t d p.source p.counter)) p.pusher).2,
        counter := p.counter + 1 }
      simp only [countSome_cons_some] at h ⊢
      simp [h]
      omega

theorem pushRun_events {T D σ : Type} (raw : RawPush T D σ)
    (xs : List (Option (T × List D))) : ∀ p : Pusher T D σ,
    (pushRun raw p xs).2 = sendEventsOf p.channel p.source p.target p.counter xs := by
  induction xs with
  | nil => intro p; simp [pushRun_nil, sendEventsOf_nil]
  | cons x xs ih =>
    intro p
    rcases x with _ | ⟨t, d⟩
    · rw [pushRun_cons, push_none_eq]
      simpa [sendEventsOf_cons_none] using ih _
    · rw [pushRun_cons, push_some_eq]
      simp only [sendEventsOf_cons_some]
      simpa using ih _

theorem pushRun_queue {T D : Type} (xs : List (Option (T × List D))) :
    ∀ p : Pusher T D (RawChannel T D),
    (pushRun RawChannel.rawPush p xs).1.pusher.queue
      = p.pusher.queue ++ framesOf p.source p.counter xs := by
  induction xs with
  | nil => intro p; simp [pushRun_nil, framesOf_nil]
  | cons x xs ih =>
    intro p
    rcases x with _ | ⟨t, d⟩
    · rw [pushRun_cons, push_none_eq]
      simpa [framesOf_cons_none, RawChannel.rawPush] using ih _
    · rw [pushRun_cons, push_some_eq]
      have h := ih { p with
        pusher := (RawChannel.rawPush.push
          (some (Message.new t d p.source p.counter)) p.pusher).2,
        counter := p.counter + 1 }
      simp only [rawChannel_push_some] at h ⊢
      simp only [framesOf_cons_some]
      simp [h]

theorem pushRun_kind {T D : Type} (xs : List (Option (T × List D))) :
    ∀ p : Pusher T D (RawChannel T D),
    (pushRun RawChannel.rawPush p xs).1.pusher.kind = p.pusher.kind := by
  induction xs with
  | nil => intro p; rfl
  | cons x xs ih =>
    intro p
    rcases x with _ | ⟨t, d⟩
    · rw [pushRun_cons, push_none_eq]
      simpa [RawChannel.rawPush] using ih _
    · rw [pushRun_cons, push_some_eq]
      simpa [rawChannel_push_some] using ih _

theorem pull_counter_eq {T D σ : Type} (raw : RawPull T D σ) (p : Puller T D σ) :
    (Puller.pull raw p).1.counter = p.counter + 1 := rfl

theorem pull_meta_eq {T D σ : Type} (raw : RawPull T D σ) (p : Puller T D σ) :
    (Puller.pull raw p).1.channel = p.channel ∧ (Puller.pull raw p).1.index = p.index :=
  ⟨rfl, rfl⟩

theorem pullRun_counter {T D σ : Type} (raw : RawPull T D σ) (k : Nat) :
    ∀ p : Puller T D σ, (pullRun raw p k).1.counter = p.counter + k := by
  induction k with
  | zero => intro p; rfl
  | succ n ih =>
    intro p
    rw [pullRun_succ]
    have h := ih (Puller.pull raw p).1
    rw [pull_counter_eq] at h
    simp [h]
    omega

theorem rawChannel_pull_cons {T D : Type} (buf : Option (Message T D))
    (m : Message T D) (rest : List (Message T D)) (kind : AllocKind) (dones : Nat) :
    RawChannel.rawPull.pull buf { kind := kind, queue := m :: rest, dones := dones }
      = (some m, { kind := kind, queue := rest, dones := dones }) := rfl

theorem pullRun_drain {T D : Type} (ms : List (Message T D)) :
    ∀ p : Puller T D (RawChannel T D), p.puller.queue = ms →
    (pullRun RawChannel.rawPull p ms.length).2.1 = ms.map (fun m => (m.time, m.data))
    ∧ (pullRun RawChannel.rawPull p ms.length).2.2 = recvEventsOf p.channel p.index ms := by
  induction ms with
  | nil => intro p h; simp [pullRun_zero, recvEventsOf]
  | cons m rest ih =>
    intro p h
    have hpull : Puller.pull RawChannel.rawPull p =
        ({ p with
            puller := { p.puller with queue := rest },
            current := some (m.time, m.data),
            counter := p.counter + 1 },
         some (m.time, m.data),
         [{ is_send := false, channel := p.channel, source := m.from_,
            target := p.index, seq_no := m.seq, length := m.data.length }]) := by
      unfold Puller.pull
      rcases hq : p.puller with ⟨kind, queue, dones⟩
      rw [hq] at h
      simp only at h
      subst h
      simp [RawChannel.rawPull]
    have hnext := ih ({ p with
        puller := { p.puller with queue := rest },
        current := some (m.time, m.data),
        counter := p.counter + 1 }) rfl
    simp only [List.length_cons, pullRun_succ, hpull] at hnext ⊢
    refine ⟨?_, ?_⟩
    · simp [hnext.1]
    · simp [hnext.2, recvEventsOf]

theorem framesOf_map_td {T D : Type} (s : Nat) (xs : List (Option (T × List D))) :
    ∀ c : Nat, (framesOf s c xs).map (fun m => (m.time, m.data)) = xs.filterMap id := by
  induction xs with
  | nil => intro c; simp [framesOf_nil]
  | cons x xs ih =>
    intro c
    rcases x with _ | ⟨t, d⟩
    · simpa [framesOf_cons_none] using ih c
    · simp [framesOf_cons_some, List.filterMap_cons, ih (c + 1), Message.new]

theorem framesOf_map_seq {T D : Type} (s : Nat) (xs : List (Option (T × List D))) :
    ∀ c : Nat, (framesOf s c xs).map (fun m => m.seq) = List.range' c (countSome xs) := by
  induction xs with
  | nil => intro c; simp [framesOf_nil, countSome_nil]
  | cons x xs ih =>
    intro c
    rcases x with _ | ⟨t, d⟩
    · simpa [framesOf_cons_none, countSome_cons_none] using ih c
    · simp [framesOf_cons_some, countSome_cons_some, Message.new, List.range'_succ,
        ih (c + 1)]

theorem framesOf_map_from {T D : Type} (s : Nat) (xs : List (Option (T × List D))) :
    ∀ c : Nat, (framesOf s c xs).map (fun m => m.from_)
      = List.replicate (countSome xs) s := by
  induction xs with
  | nil => intro c; simp [framesOf_nil, countSome_nil]
  | cons x xs ih =>
    intro c
    rcases x with _ | ⟨t, d⟩
    · simpa [framesOf_cons_none, countSome_cons_none] using ih c
    · simp [framesOf_cons_some, countSome_cons_some, Message.new, ih (c + 1),
        List.replicate_succ]

theorem recvEventsOf_map_seq {T D : Type} (channel idx : Nat)
    (ms : List (Message T D)) :
    (recvEventsOf channel idx ms).map (fun ev => ev.seq_no) = ms.map (fun m => m.seq) := by
  simp [recvEventsOf, List.map_map, Function.comp]

theorem recvEventsOf_map_source {T D : Type} (channel idx : Nat)
    (ms : List (Message T D)) :
    (recvEventsOf channel idx ms).map (fun ev => ev.source)
      = ms.map (fun m => m.from_) := by
  simp [recvEventsOf, List.map_map, Function.comp]

theorem sendEventsOf_map_seq {T D : Type} (channel s tg : Nat)
    (xs : List (Option (T × List D))) : ∀ c : Nat,
    (sendEventsOf channel s tg c xs).map (fun ev => ev.seq_no)
      = List.range' c (countSome xs) := by
  induction xs with
  | nil => intro c; simp [sendEventsOf_nil, countSome_nil]
  | cons x xs ih =>
    intro c
    rcases x with _ | ⟨t, d⟩
    · simpa [sendEventsOf_cons_none, countSome_cons_none] using ih c
    · simp [sendEventsOf_cons_some, countSome_cons_some, List.range'_succ, ih (c + 1)]

theorem sum_set_get {α : Type} (f : α → Nat) :
    ∀ (l : List α) (i : Nat) (a : α) (h : i < l.length),
    ((l.set i a).map f).sum + f (l.get ⟨i, h⟩) = (l.map f).sum + f a := by
  intro l
  induction l with
  | nil => intro i a h; simp at h
  | cons x xs ih =>
    intro i a h
    cases i with
    | zero => simp [List.set]; omega
    | succ n =>
      have hn : n < xs.length := by simpa using h
      have := ih n a hn
      simp only [List.set, List.map_cons, List.sum_cons, List.get_cons_succ]
      omega

theorem exchangePush_some_eq {T D σ : Type} (raw : RawPush T D σ)
    (e : ExchangePusher T D σ)
    (hN : 0 < e.pushers.length) (t : T) (d : List D) :
    ∃ hi : e.hash_func t d % e.pushers.length < e.pushers.length,
    (ExchangePusher.push raw e (some (t, d))).1 =
      { e with
          pushers := e.pushers.set (e.hash_func t d % e.pushers.length)
            (Pusher.push raw
              (e.pushers.get ⟨e.hash_func t d % e.pushers.length, hi⟩)
              (some (t, d))).1 } := by
  have hi : e.hash_func t d % e.pushers.length < e.pushers.length :=
    Nat.mod_lt _ hN
  refine ⟨hi, ?_⟩
  have hget : e.pushers.get? (e.hash_func t d % e.pushers.length)
      = some (e.pushers.get ⟨e.hash_func t d % e.pushers.length, hi⟩) :=
    List.get?_eq_get hi
  unfold ExchangePusher.push
  simp only [hget]

theorem exchangePush_some_total {T D : Type} (e : ExchangePusher T D (RawChannel T D))
    (hN : 0 < e.pushers.length) (t : T) (d : List D) :
    totalRecords (ExchangePusher.push RawChannel.rawPush e (some (t, d))).1
      = totalRecords e + d.length
    ∧ (ExchangePusher.push RawChannel.rawPush e (some (t, d))).1.pushers.length
      = e.pushers.length
    ∧ (ExchangePusher.push RawChannel.rawPush e (some (t, d))).1.hash_func
      = e.hash_func := by
  obtain ⟨hi, heq⟩ := exchangePush_some_eq RawChannel.rawPush e hN t d
  have hnew : queueRecords (Pusher.push RawChannel.rawPush
      (e.pushers.get ⟨e.hash_func t d % e.pushers.length, hi⟩) (some (t, d))).1.pusher
      = queueRecords (e.pushers.get ⟨e.hash_func t d % e.pushers.length, hi⟩).pusher
        + d.length := by
    rw [push_some_eq]
    simp [queueRecords, rawChannel_push_some, Message.new]
  have hsum := sum_set_get (fun p => queueRecords p.pusher) e.pushers
    (e.hash_func t d % e.pushers.length)
    (Pusher.push RawChannel.rawPush
      (e.pushers.get ⟨e.hash_func t d % e.pushers.length, hi⟩) (some (t, d))).1 hi
  rw [heq]
  refine ⟨?_, by simp, rfl⟩
  simp only [totalRecords]
  simp only at hsum
  omega

theorem exchangeRun_some_total {T D : Type} (xs : List (T × List D)) :
    ∀ e : ExchangePusher T D (RawChannel T D), 0 < e.pushers.length →
    totalRecords (exchangeRun RawChannel.rawPush e (xs.map some)).1
      = totalRecords e + recordCount xs
    ∧ (exchangeRun RawChannel.rawPush e (xs.map some)).1.pushers.length
      = e.pushers.length := by
  induction xs with
  | nil => intro e h; simp [exchangeRun, recordCount]
  | cons x xs ih =>
    intro e h
    obtain ⟨htot, hlen, _⟩ :=
      exchangePush_some_total e h x.1 x.2
    have hpos : 0 < (ExchangePusher.push RawChannel.rawPush e (some x)).1.pushers.length := by
      rw [hlen]; exact h
    have hx : (some x.1, x.2) = (some x.1, x.2) := rfl
    have hrest := ih (ExchangePusher.push RawChannel.rawPush e (some x)).1 hpos
    constructor
    · show totalRecords (exchangeRun RawChannel.rawPush
        (ExchangePusher.push RawChannel.rawPush e (some x)).1 (xs.map some)).1 = _
      rw [hrest.1, htot]
      simp [recordCount]
      omega
    · show (exchangeRun RawChannel.rawPush
        (ExchangePusher.push RawChannel.rawPush e (some x)).1 (xs.map some)).1.pushers.length = _
      rw [hrest.2, hlen]

theorem enumFrom_replicate_pushers {T D : Type} (x : RawChannel T D)
    (idx identifier : Nat) : ∀ (n k : Nat),
    ((List.replicate n x).enumFrom k).map
        (fun ix => Pusher.new (T := T) (D := D) ix.2 idx ix.1 identifier)
      = (List.range' k n).map (fun i => Pusher.new x idx i identifier) := by
  intro n
  induction n with
  | zero => intro k; simp
  | succ m ih =>
    intro k
    simp only [List.replicate_succ, List.enumFrom_cons, List.range'_succ,
      List.map_cons]
    exact congrArg _ (ih (k + 1))

theorem exchange_connect_eq {T D : Type} (hashE : List D → Nat) (a : Allocate)
    (identifier : Nat) :
    Exchange.connect T (Exchange.new hashE) a identifier =
      (ExchangePusher.new
        ((List.range a.peers).map
          (fun i => Pusher.new (crossFresh T D) a.index i identifier))
        (fun _ d => hashE d),
       Puller.new (crossFresh T D) a.index identifier) := by
  unfold Exchange.connect Allocate.allocate
  simp only [List.enum]
  rw [List.range_eq_range']
  rw [enumFrom_replicate_pushers]
  rfl

theorem timeExchange_connect_eq {T D : Type} (hashT : T → List D → Nat)
    (a : Allocate) (identifier : Nat) :
    TimeExchange.connect (TimeExchange.new hashT) a identifier =
      (ExchangePusher.new
        ((List.range a.peers).map
          (fun i => Pusher.new (crossFresh T D) a.index i identifier))
        hashT,
       Puller.new (crossFresh T D) a.index identifier) := by
  unfold TimeExchange.connect Allocate.allocate
  simp only [List.enum]
  rw [List.range_eq_range']
  rw [enumFrom_replicate_pushers]
  rfl

theorem totalRecords_initial {T D : Type} (n idx identifier : Nat)
    (h : T → List D → Nat) :
    totalRecords (ExchangePusher.new
      ((List.range n).map (fun i => Pusher.new (crossFresh T D) idx i identifier)) h)
      = 0 := by
  simp only [totalRecords, ExchangePusher.new, List.map_map]
  apply List.sum_eq_zero
  intro x hx
  simp only [List.mem_map] at hx
  obtain ⟨i, _, hi⟩ := hx
  rw [← hi]
  simp [Function.comp, Pusher.new, crossFresh, queueRecords]

theorem received_records_sum {T D : Type} (e : ExchangePusher T D (RawChannel T D))
    (identifier : Nat) :
    ((e.pushers.map (fun p =>
        (pullRun RawChannel.rawPull (Puller.new p.pusher p.target identifier)
          p.pusher.queue.length).2.1)).map recordCount).sum
      = totalRecords e := by
  rw [List.map_map]
  simp only [totalRecords]
  apply congrArg
  apply List.map_congr_left
  intro p _
  have hd := (pullRun_drain p.pusher.queue
    (Puller.new p.pusher p.target identifier) rfl).1
  simp only [Function.comp]
  rw [hd]
  simp only [recordCount, List.map_map]
  rfl

theorem pipelineReceived_eq {T D : Type} (a : Allocate) (identifier : Nat)
    (xs : List (T × List D)) :
    pipelineReceived T D a identifier xs = xs := by
  show (pullRun RawChannel.rawPull
      { puller := (pushRun RawChannel.rawPush
          (Pusher.new Thread.new a.index a.index identifier) (xs.map some)).1.pusher,
        current := none, channel := identifier, counter := 0, index := a.index }
      (pushRun RawChannel.rawPush
        (Pusher.new Thread.new a.index a.index identifier)
        (xs.map some)).1.pusher.queue.length).2.1
    = xs
  have hd := (pullRun_drain
    ((pushRun RawChannel.rawPush
      (Pusher.new Thread.new a.index a.index identifier) (xs.map some)).1.pusher.queue)
    ({ puller := (pushRun RawChannel.rawPush
        (Pusher.new Thread.new a.index a.index identifier) (xs.map some)).1.pusher,
       current := none, channel := identifier, counter := 0, index := a.index })
    rfl).1
  rw [hd]
  have hq := pushRun_queue (xs.map some)
    (Pusher.new Thread.new a.index a.index identifier)
  rw [hq]
  simp only [Pusher.new, Thread.new, List.nil_append]
  rw [framesOf_map_td]
  simp

theorem fanout_received_sum {T D : Type} (e : ExchangePusher T D (RawChannel T D))
    (identifier : Nat) (xs : List (T × List D)) (h : 0 < e.pushers.length) :
    (((exchangeRun RawChannel.rawPush e (xs.map some)).1.pushers.map (fun p =>
        (pullRun RawChannel.rawPull (Puller.new p.pusher p.target identifier)
          p.pusher.queue.length).2.1)).map recordCount).sum
      = totalRecords e + recordCount xs := by
  rw [received_records_sum]
  exact (exchangeRun_some_total xs e h).1

theorem exchangeReceived_sum {T D : Type} (hashE : List D → Nat) (a : Allocate)
    (identifier : Nat) (h : 0 < a.peers) (xs : List (T × List D)) :
    ((exchangeReceived T D (Exchange.new hashE) a identifier xs).map
      recordCount).sum = recordCount xs := by
  show (((exchangeRun RawChannel.rawPush
      (Exchange.connect T (Exchange.new hashE) a identifier).1
      (xs.map some)).1.pushers.map (fun p =>
        (pullRun RawChannel.rawPull (Puller.new p.pusher p.target identifier)
          p.pusher.queue.length).2.1)).map recordCount).sum = recordCount xs
  rw [exchange_connect_eq hashE a identifier]
  have hlen : 0 < ((ExchangePusher.new
      ((List.range a.peers).map
        (fun i => Pusher.new (crossFresh T D) a.index i identifier))
      (fun _ d => hashE d) : ExchangePusher T D (RawChannel T D))).pushers.length := by
    simpa [ExchangePusher.new] using h
  rw [fanout_received_sum _ identifier xs hlen, totalRecords_initial]
  omega

theorem timeExchangeReceived_sum {T D : Type} (hashT : T → List D → Nat)
    (a : Allocate) (identifier : Nat) (h : 0 < a.peers) (xs : List (T × List D)) :
    ((timeExchangeReceived (TimeExchange.new hashT) a identifier xs).map
      recordCount).sum = recordCount xs := by
  show (((exchangeRun RawChannel.rawPush
      (TimeExchange.connect (TimeExchange.new hashT) a identifier).1
      (xs.map some)).1.pushers.map (fun p =>
        (pullRun RawChannel.rawPull (Puller.new p.pusher p.target identifier)
          p.pusher.queue.length).2.1)).map recordCount).sum = recordCount xs
  rw [timeExchange_connect_eq hashT a identifier]
  have hlen : 0 < (ExchangePusher.new
      ((List.range a.peers).map
        (fun i => Pusher.new (crossFresh T D) a.index i identifier))
      hashT).pushers.length := by
    simpa [ExchangePusher.new] using h
  rw [fanout_received_sum _ identifier xs hlen, totalRecords_initial]
  omega

/-! Claim theorems. -/

/-- C2: pushing a slot holding (time, batch) constructs exactly one Framed
Message from (time, batch, this worker's index, the current sequence
counter), increments the counter by one, forwards that frame to the
underlying raw endpoint, and afterwards the caller's slot holds the
(time, batch) extracted from any frame the raw endpoint handed back, or is
empty if the raw endpoint returned none. -/
theorem push_some_behaviour (T D σ : Type) (raw : RawPush T D σ)
    (p : Pusher T D σ) (t : T) (d : List D) :
    (Pusher.push raw p (some (t, d))).1.pusher
      = (raw.push (some (Message.new t d p.source p.counter)) p.pusher).2
    ∧ (Pusher.push raw p (some (t, d))).1.counter = p.counter + 1
    ∧ (Pusher.push raw p (some (t, d))).1.source = p.source
    ∧ (Pusher.push raw p (some (t, d))).1.target = p.target
    ∧ (Pusher.push raw p (some (t, d))).1.channel = p.channel
    ∧ (Pusher.push raw p (some (t, d))).2.1
      = (raw.push (some (Message.new t d p.source p.counter)) p.pusher).1.map
          (fun x => (x.time, x.data)) :=
  ⟨rfl, rfl, rfl, rfl, rfl, rfl⟩

/-- C3: pushing an empty slot issues exactly one flush/close (done) signal to
the underlying raw endpoint, constructs no Framed Message (the endpoint state
is exactly one `done` application, nothing pushed), leaves the slot empty,
and emits no telemetry event. -/
theorem push_none_flush_only (T D σ : Type) (raw : RawPush T D σ)
    (p : Pusher T D σ) :
    Pusher.push raw p none = ({ p with pusher := raw.done p.pusher }, none, []) :=
  rfl

/-- C4: every push call whose slot holds a value emits exactly one send
telemetry event, synchronously with the call, carrying is_send = true, the
endpoint's channel id, source, target, the sequence number assigned to the
frame (the counter value before the increment), and the pushed batch's
length. -/
theorem push_send_telemetry (T D σ : Type) (raw : RawPush T D σ)
    (p : Pusher T D σ) (t : T) (d : List D) :
    (Pusher.push raw p (some (t, d))).2.2 =
      [{ is_send := true, channel := p.channel, source := p.source,
         target := p.target, seq_no := p.counter, length := d.length }]
    ∧ (Pusher.push raw p (some (t, d))).1.counter = p.counter + 1 :=
  ⟨rfl, rfl⟩

/-- C5: a pull call re-wraps the previously held (time, batch) as a Framed
Message stamped with this worker's index and the local pull counter, swaps it
with the underlying raw endpoint's current result, emits one receive
telemetry event per received frame whose source and sequence number are the
frame's embedded sender and original sequence number and whose length is the
frame's batch length, stores the received frame's (time, batch) in the held
slot (empty when no frame was received), and returns the held slot. -/
theorem pull_behaviour (T D σ : Type) (raw : RawPull T D σ) (p : Puller T D σ) :
    Puller.pull raw p =
      ({ p with
          puller := (raw.pull (p.current.map
            (fun td => Message.new td.1 td.2 p.index p.counter)) p.puller).2,
          current := (raw.pull (p.current.map
            (fun td => Message.new td.1 td.2 p.index p.counter)) p.puller).1.map
              (fun m => (m.time, m.data)),
          counter := p.counter + 1 },
       (raw.pull (p.current.map
         (fun td => Message.new td.1 td.2 p.index p.counter)) p.puller).1.map
           (fun m => (m.time, m.data)),
       match (raw.pull (p.current.map
           (fun td => Message.new td.1 td.2 p.index p.counter)) p.puller).1 with
       | some m =>
         [{ is_send := false, channel := p.channel, source := m.from_,
            target := p.index, seq_no := m.seq, length := m.data.length }]
       | none => [])
    ∧ (Puller.pull raw p).2.1 = (Puller.pull raw p).1.current :=
  ⟨rfl, rfl⟩

/-- C10: the receive endpoint wrapper's local pull counter increments by
exactly one on every pull call, whatever the underlying endpoint yields and
whatever the held slot was; hence after k pulls the counter has grown by
exactly k. -/
theorem pull_counter_unconditional (T D σ : Type) (raw : RawPull T D σ)
    (p : Puller T D σ) (k : Nat) :
    (Puller.pull raw p).1.counter = p.counter + 1
    ∧ (pullRun raw p k).1.counter = p.counter + k :=
  ⟨pull_counter_eq raw p, pullRun_counter raw k p⟩

/-- C7: the Direct (Pipeline) contract's connect allocates its queue from the
thread-local allocator, independently of the passed cross-worker allocator
(two allocators with the same worker index yield the same endpoints), and
produces one send wrapper and one receive wrapper both stamped with the
current worker's own index as source and target, carrying the given channel
identifier. -/
theorem pipeline_connect_spec (T D : Type) (a b : Allocate) (identifier : Nat)
    (h : a.index = b.index) :
    (Pipeline.connect T D a identifier).1.pusher.kind = AllocKind.threadLocal
    ∧ (Pipeline.connect T D a identifier).2.puller.kind = AllocKind.threadLocal
    ∧ (Pipeline.connect T D a identifier).1.source = a.index
    ∧ (Pipeline.connect T D a identifier).1.target = a.index
    ∧ (Pipeline.connect T D a identifier).1.channel = identifier
    ∧ (Pipeline.connect T D a identifier).2.index = a.index
    ∧ (Pipeline.connect T D a identifier).2.channel = identifier
    ∧ Pipeline.connect T D a identifier = Pipeline.connect T D b identifier := by
  refine ⟨rfl, rfl, rfl, rfl, rfl, rfl, rfl, ?_⟩
  unfold Pipeline.connect
  rw [h]

/-- Witness for C7 at the concrete allocators (index 0, 1 peer) and
(index 0, 4 peers) with channel identifier 3. -/
theorem pipeline_connect_spec_witness :
    ((⟨0, 1⟩ : Allocate).index = (⟨0, 4⟩ : Allocate).index)
    ∧ ((Pipeline.connect Nat Nat ⟨0, 1⟩ 3).1.pusher.kind = AllocKind.threadLocal
       ∧ (Pipeline.connect Nat Nat ⟨0, 1⟩ 3).2.puller.kind = AllocKind.threadLocal
       ∧ (Pipeline.connect Nat Nat ⟨0, 1⟩ 3).1.source = (⟨0, 1⟩ : Allocate).index
       ∧ (Pipeline.connect Nat Nat ⟨0, 1⟩ 3).1.target = (⟨0, 1⟩ : Allocate).index
       ∧ (Pipeline.connect Nat Nat ⟨0, 1⟩ 3).1.channel = 3
       ∧ (Pipeline.connect Nat Nat ⟨0, 1⟩ 3).2.index = (⟨0, 1⟩ : Allocate).index
       ∧ (Pipeline.connect Nat Nat ⟨0, 1⟩ 3).2.channel = 3
       ∧ Pipeline.connect Nat Nat ⟨0, 1⟩ 3 = Pipeline.connect Nat Nat ⟨0, 4⟩ 3) :=
  ⟨rfl, pipeline_connect_spec Nat Nat ⟨0, 1⟩ ⟨0, 4⟩ 3 rfl⟩

/-- C8: Hash-Exchange connect (and identically the Time-And-Data variant)
obtains one raw cross-worker send endpoint per destination worker plus one
receive endpoint, wraps the i-th sender with source = this worker's index,
target = i and the given channel identifier, combines the N wrapped senders
into a single fan-out endpoint (whose hash ignores the time in the data-only
variant), and returns it with one wrapped receive endpoint stamped with this
worker's index and the identifier. -/
theorem exchange_connect_spec (T D : Type) (hashE : List D → Nat)
    (hashT : T → List D → Nat) (a : Allocate) (identifier : Nat) :
    Exchange.connect T (Exchange.new hashE) a identifier =
      (ExchangePusher.new
        ((List.range a.peers).map
          (fun i => Pusher.new (crossFresh T D) a.index i identifier))
        (fun _ d => hashE d),
       Puller.new (crossFresh T D) a.index identifier)
    ∧ TimeExchange.connect (TimeExchange.new hashT) a identifier =
      (ExchangePusher.new
        ((List.range a.peers).map
          (fun i => Pusher.new (crossFresh T D) a.index i identifier))
        hashT,
       Puller.new (crossFresh T D) a.index identifier)
    ∧ (Exchange.connect T (Exchange.new hashE) a identifier).1.pushers.length
      = a.peers := by
  refine ⟨exchange_connect_eq hashE a identifier,
    timeExchange_connect_eq hashT a identifier, ?_⟩
  rw [exchange_connect_eq hashE a identifier]
  simp [ExchangePusher.new]

/-- C9: routing in the fan-out endpoint of the Hash-Exchange contract is a
deterministic function of the data alone: whenever the configured hash is
data-only, two pushes whose data agree on hash(data) mod N are routed to the
same destination index hash(data) mod N, regardless of their timestamps and
of any other endpoint state. -/
theorem exchange_routing_determinism (T D σ : Type) (raw : RawPush T D σ)
    (hash : List D → Nat) (e : ExchangePusher T D σ)
    (hf : e.hash_func = fun _ d => hash d) (hN : 0 < e.pushers.length)
    (t1 t2 : T) (d1 d2 : List D)
    (hh : hash d1 % e.pushers.length = hash d2 % e.pushers.length) :
    ∃ i, ∃ hi : i < e.pushers.length,
      i = hash d1 % e.pushers.length
      ∧ (ExchangePusher.push raw e (some (t1, d1))).1.pushers
        = e.pushers.set i
            (Pusher.push raw (e.pushers.get ⟨i, hi⟩) (some (t1, d1))).1
      ∧ (ExchangePusher.push raw e (some (t2, d2))).1.pushers
        = e.pushers.set i
            (Pusher.push raw (e.pushers.get ⟨i, hi⟩) (some (t2, d2))).1 := by
  obtain ⟨hi1, heq1⟩ := exchangePush_some_eq raw e hN t1 d1
  obtain ⟨hi2, heq2⟩ := exchangePush_some_eq raw e hN t2 d2
  simp only [hf] at heq1 heq2 hi1 hi2
  refine ⟨hash d1 % e.pushers.length, hi1, rfl, ?_, ?_⟩
  · rw [heq1]
  · rw [heq2]
    have hfin : (⟨hash d2 % e.pushers.length, hi2⟩ : Fin e.pushers.length)
        = ⟨hash d1 % e.pushers.length, hi1⟩ := Fin.eq_of_val_eq hh.symm
    dsimp only
    congr 1
    · exact hh.symm
    · exact congrArg (fun x => (Pusher.push raw x (some (t2, d2))).1)
        (congrArg e.pushers.get hfin)

/-- Witness for C9: a concrete two-worker fan-out endpoint whose hash reads
the batch head; batches [2] and [4] agree mod 2 and both land on worker 0. -/
theorem exchange_routing_determinism_witness :
    (routingWitnessEndpoint.hash_func = fun _ d => List.headD d 0)
    ∧ 0 < routingWitnessEndpoint.pushers.length
    ∧ List.headD [2] 0 % routingWitnessEndpoint.pushers.length
      = List.headD [4] 0 % routingWitnessEndpoint.pushers.length
    ∧ ∃ i, ∃ hi : i < routingWitnessEndpoint.pushers.length,
        i = List.headD [2] 0 % routingWitnessEndpoint.pushers.length
        ∧ (ExchangePusher.push RawChannel.rawPush routingWitnessEndpoint
            (some (7, [2]))).1.pushers
          = routingWitnessEndpoint.pushers.set i
              (Pusher.push RawChannel.rawPush
                (routingWitnessEndpoint.pushers.get ⟨i, hi⟩) (some (7, [2]))).1
        ∧ (ExchangePusher.push RawChannel.rawPush routingWitnessEndpoint
            (some (9, [4]))).1.pushers
          = routingWitnessEndpoint.pushers.set i
              (Pusher.push RawChannel.rawPush
                (routingWitnessEndpoint.pushers.get ⟨i, hi⟩) (some (9, [4]))).1 :=
  ⟨rfl, by decide, by decide,
   exchange_routing_determinism Nat Nat (RawChannel Nat Nat) RawChannel.rawPush
     (fun d => List.headD d 0) routingWitnessEndpoint rfl (by decide) 7 9 [2] [4]
     (by decide)⟩

/-- C6 counterexample: on a two-worker Hash-Exchange connection (channel 7,
worker 0), three pushes routed to workers 0, 0, 1 are all framed with the
same (source, channel) pair (0, 7), yet the sequence numbers assigned in
push order are 0, 1, 0 — not monotonically increasing per (source, channel) —
because each of the N wrapped send endpoints keeps its own counter starting
at 0. -/
theorem seq_per_source_channel_counterexample :
    (mixedTargetsRun.map (fun ev => (ev.source, ev.channel))
      = [(0, 7), (0, 7), (0, 7)])
    ∧ mixedTargetsRun.map (fun ev => ev.seq_no) = [0, 1, 0]
    ∧ ¬ List.Pairwise (· ≤ ·) (mixedTargetsRun.map (fun ev => ev.seq_no)) :=
  ⟨by decide, by decide, by decide⟩

/-- C6 (amended): sequence numbers are assigned monotonically, starting at 0
and increasing by one, per wrapped send endpoint — that is, per distinct
(source, target, channel) triple, not per (source, channel) pair (the N
wrapped senders of an Exchange share (source, channel) and each restarts at
0).  Consequently, for a fixed wrapped endpoint over a FIFO, lossless
channel, the seq_no values observed at the receiver are exactly
0, 1, 2, ... — strictly increasing, no repeats, no gaps — for any
interleaving of present and empty push calls. -/
theorem seq_per_endpoint_fifo (T D : Type) (kind : AllocKind)
    (dones source target channel idx : Nat) (xs : List (Option (T × List D))) :
    let sent := pushRun RawChannel.rawPush
      (Pusher.new { kind := kind, queue := [], dones := dones } source target channel)
      xs
    let observed := (pullRun RawChannel.rawPull
      (Puller.new sent.1.pusher idx channel) sent.1.pusher.queue.length).2.2
    (sent.2.map (fun ev => ev.seq_no) = List.range (countSome xs))
    ∧ observed.map (fun ev => ev.seq_no) = List.range (countSome xs)
    ∧ List.Pairwise (· < ·) (observed.map (fun ev => ev.seq_no))
    ∧ observed.map (fun ev => ev.source) = List.replicate (countSome xs) source := by
  intro sent observed
  have hinit : (Pusher.new (T := T) (D := D)
      ({ kind := kind, queue := [], dones := dones } : RawChannel T D)
      source target channel)
      = ({ pusher := { kind := kind, queue := [], dones := dones },
           channel := channel, counter := 0, source := source,
           target := target } : Pusher T D (RawChannel T D)) := rfl
  have hsent : sent.2.map (fun ev => ev.seq_no) = List.range (countSome xs) := by
    show (pushRun RawChannel.rawPush _ xs).2.map (fun ev => ev.seq_no) = _
    rw [pushRun_events]
    rw [hinit]
    rw [sendEventsOf_map_seq]
    exact (List.range_eq_range' _).symm
  have hqueue : sent.1.pusher.queue = framesOf source 0 xs := by
    show (pushRun RawChannel.rawPush _ xs).1.pusher.queue = _
    rw [pushRun_queue]
    rw [hinit]
    simp
  have hobs : observed = recvEventsOf channel idx sent.1.pusher.queue := by
    show (pullRun RawChannel.rawPull
      (Puller.new sent.1.pusher idx channel) sent.1.pusher.queue.length).2.2 = _
    exact (pullRun_drain sent.1.pusher.queue
      (Puller.new sent.1.pusher idx channel) rfl).2
  have hseq : observed.map (fun ev => ev.seq_no) = List.range (countSome xs) := by
    rw [hobs, recvEventsOf_map_seq, hqueue, framesOf_map_seq]
    exact (List.range_eq_range' _).symm
  refine ⟨hsent, hseq, ?_, ?_⟩
  · rw [hseq]
    exact List.pairwise_lt_range _
  · rw [hobs, recvEventsOf_map_source, hqueue, framesOf_map_from]

/-- C1: for every contract variant (Direct/Pipeline, Hash-Exchange,
Time-And-Data Hash-Exchange) and every sequence of batches pushed at a fixed
timestamp t, the sum of batch lengths observed across all receive endpoints
fed by the contract instance equals the sum of batch lengths pushed: the
endpoint pair never alters the number of records at a given timestamp. -/
theorem record_count_invariance (T D : Type) (a : Allocate) (h : 0 < a.peers)
    (identifier : Nat) (t : T) (hashE : List D → Nat) (hashT : T → List D → Nat)
    (ds : List (List D)) :
    recordCount (pipelineReceived T D a identifier (ds.map (fun d => (t, d))))
      = recordCount (ds.map (fun d => (t, d)))
    ∧ ((exchangeReceived T D (Exchange.new hashE) a identifier
        (ds.map (fun d => (t, d)))).map recordCount).sum
      = recordCount (ds.map (fun d => (t, d)))
    ∧ ((timeExchangeReceived (TimeExchange.new hashT) a identifier
        (ds.map (fun d => (t, d)))).map recordCount).sum
      = recordCount (ds.map (fun d => (t, d))) :=
  ⟨by rw [pipelineReceived_eq],
   exchangeReceived_sum hashE a identifier h (ds.map (fun d => (t, d))),
   timeExchangeReceived_sum hashT a identifier h (ds.map (fun d => (t, d)))⟩

/-- Witness for C1 at two workers, channel 3, timestamp 1, batches
[5, 6] and [7], with concrete data-only and time-and-data hashes. -/
theorem record_count_invariance_witness :
    0 < (⟨0, 2⟩ : Allocate).peers
    ∧ (recordCount (pipelineReceived Nat Nat ⟨0, 2⟩ 3
          (([[5, 6], [7]] : List (List Nat)).map (fun d => ((1 : Nat), d))))
        = recordCount (([[5, 6], [7]] : List (List Nat)).map (fun d => ((1 : Nat), d)))
       ∧ ((exchangeReceived Nat Nat (Exchange.new (fun d => List.headD d 0)) ⟨0, 2⟩ 3
            (([[5, 6], [7]] : List (List Nat)).map (fun d => ((1 : Nat), d)))).map
              recordCount).sum
        = recordCount (([[5, 6], [7]] : List (List Nat)).map (fun d => ((1 : Nat), d)))
       ∧ ((timeExchangeReceived (TimeExchange.new (fun t d => t + List.headD d 0))
            ⟨0, 2⟩ 3
            (([[5, 6], [7]] : List (List Nat)).map (fun d => ((1 : Nat), d)))).map
              recordCount).sum
        = recordCount (([[5, 6], [7]] : List (List Nat)).map (fun d => ((1 : Nat), d)))) :=
  ⟨by decide,
   record_count_invariance Nat Nat ⟨0, 2⟩ (by decide) 3 1
     (fun d => List.headD d 0) (fun t d => t + List.headD d 0) [[5, 6], [7]]⟩

end TimelyPact
